import Mathlib

/-!
Verification of the task-store core of `TaskManagerV2.py`
(classes `Task` and `TaskManager`, plus the date validator
`TaskManagerGUI.validate_date`), as a shallow embedding in Lean.

Python values are modelled as follows:
* JSON documents (the values handled by `json.load` / `json.dump`) are an
  inductive `Json` type; a `Json.obj` models a parsed Python `dict`
  (keys unique, as produced by `json.load`).
* The backing file is a `FileState`: absent, present with content that is
  not valid JSON, or present with a parsed JSON document.  Reading the raw
  bytes and running the JSON parser is abstracted into this three-way split.
* Python exceptions that cross the function boundary are `Except` errors.
* File writes performed by a method are returned as an explicit trace of
  `FsOp` operations, so that claims about what does (and does not) get
  persisted can be stated.
* Machine-level caveats: string lowering/whitespace use the ASCII model of
  `String.toLower` / `Char.isWhitespace` (CPython additionally handles
  non-ASCII case folding, Unicode digits and Unicode whitespace; no claim
  in scope depends on non-ASCII input).
-/

namespace TaskManagerV2

/-- The JSON data model, as produced by Python's `json.load`.
`num` is restricted to integers; no claim involves fractional literals. -/
inductive Json where
  | null
  | bool (b : Bool)
  | num (n : Int)
  | str (s : String)
  | arr (items : List Json)
  | obj (fields : List (String × Json))

/-- A task record: `Task.__init__` stores the four fields verbatim.
The embedding fixes the fields at `String`, the type the rest of the
program (filtering, sorting, validation) operates on. -/
structure Task where
  name : String
  description : String
  priority : String
  due_date : String
deriving DecidableEq, Repr, Inhabited

/-- `Task.to_dict`: the four-key mapping written by `json.dump`. -/
def Task.to_dict (t : Task) : Json :=
  .obj [("name", .str t.name), ("description", .str t.description),
        ("priority", .str t.priority), ("due_date", .str t.due_date)]

/-- Errors that escape `TaskManager.load_tasks_from_json` (Python
`KeyError`/`TypeError`; neither is caught by the `try` in the source).
`nonStringField` marks the one corner the `String`-typed embedding cannot
represent: a record whose key is present but bound to a non-string value
(CPython would build a `Task` holding that raw value). -/
inductive LoadErr where
  | keyError (key : String)
  | typeError
  | nonStringField (key : String)
deriving DecidableEq, Repr

/-- Look up `key` in a record and require a string value, as
`task_dict["name"]` does on a parsed JSON dict (missing key: `KeyError`). -/
def getStrField (fields : List (String × Json)) (key : String) :
    Except LoadErr String :=
  match fields.lookup key with
  | none => .error (.keyError key)
  | some (.str s) => .ok s
  | some _ => .error (.nonStringField key)

/-- `Task.from_dict`: builds a `Task` from a mapping, reading the four keys
in source order; subscripting a non-dict raises `TypeError`. -/
def Task.from_dict (j : Json) : Except LoadErr Task :=
  match j with
  | .obj fields => do
    let n ← getStrField fields "name"
    let d ← getStrField fields "description"
    let p ← getStrField fields "priority"
    let dd ← getStrField fields "due_date"
    .ok ⟨n, d, p, dd⟩
  | _ => .error .typeError

/-- Python iteration over the value returned by `json.load`, as used by the
list comprehension `[Task.from_dict(d) for d in task_dicts]`: a list yields
its items, a str its one-character substrings, a dict its keys; `int`,
`bool` and `None` are not iterable (`TypeError`). -/
def pyIter (j : Json) : Except LoadErr (List Json) :=
  match j with
  | .arr items => .ok items
  | .str s => .ok (s.data.map fun c => .str (String.singleton c))
  | .obj fields => .ok (fields.map fun kv => .str kv.1)
  | _ => .error .typeError

/-- The list comprehension `[Task.from_dict(task_dict) for task_dict in
task_dicts]`: left to right, first failure propagates. -/
def parseTasks : List Json → Except LoadErr (List Task)
  | [] => .ok []
  | j :: js => do
    let t ← Task.from_dict j
    let ts ← parseTasks js
    .ok (t :: ts)

/-- State of the backing file as seen through `json.load`:
absent (`FileNotFoundError`), unparseable content (`JSONDecodeError`),
or a parsed JSON document. -/
inductive FileState where
  | absent
  | notJson (raw : String)
  | json (j : Json)

/-- `TaskManager.load_tasks_from_json`: the `try` block catches exactly
`FileNotFoundError` and `json.JSONDecodeError` (empty list, warning only);
any error raised while converting records propagates to the caller. -/
def load_tasks_from_json (fs : FileState) : Except LoadErr (List Task) :=
  match fs with
  | .absent => .ok []
  | .notJson _ => .ok []
  | .json j => do
    let items ← pyIter j
    parseTasks items

/-- File-system operations a store method can perform on the backing file.
`openWrite p` is `open(p, "w")` (truncates `p`); `writeAll p j` is
`json.dump(j, file)` writing the serialized document; `rename` is kept in
the vocabulary so that the absence of any rename step can be stated. -/
inductive FsOp where
  | openWrite (path : String)
  | writeAll (path : String) (content : Json)
  | rename (src : String) (target : String)

/-- `TaskManager.save_tasks_to_json`: opens the backing file itself for
writing and dumps the full serialized list into it. -/
def save_tasks_to_json (json_file : String) (tasks : List Task) : List FsOp :=
  [.openWrite json_file, .writeAll json_file (.arr (tasks.map Task.to_dict))]

/-- Whether a trace contains a rename step. -/
def hasRename (ops : List FsOp) : Bool :=
  ops.any fun op => match op with
    | .rename _ _ => true
    | _ => false

/-- Python `str.lower()` (ASCII model): per-character lowering.  Char
lists rather than `String` are used for derived text throughout, because
Lean's byte-indexed `String` primitives do not reduce in the kernel. -/
def lowerData (s : String) : List Char := s.data.map Char.toLower

/-- Strip whitespace from both ends, as Python `str.strip()` and the
parsing step of `int(str)` do (ASCII whitespace model). -/
def stripWs (cs : List Char) : List Char :=
  ((cs.dropWhile Char.isWhitespace).reverse.dropWhile Char.isWhitespace).reverse

/-- Whether `needle` occurs at the start of `hay` (chars, contiguously). -/
def startsWithChars : List Char → List Char → Bool
  | _, [] => true
  | [], _ :: _ => false
  | c :: cs, d :: ds => c == d && startsWithChars cs ds

/-- Python's `needle in hay` on strings: contiguous-substring test
(the empty needle matches everywhere). -/
def containsSub (hay needle : List Char) : Bool :=
  match hay with
  | [] => startsWithChars [] needle
  | _ :: cs => startsWithChars hay needle || containsSub cs needle

/-- Truthiness of the Python guard `f and f.strip()` on an optional string
argument: `None` and the empty string are falsy, and so is a string whose
`strip()` is empty. -/
def pyTruthy (f : Option String) : Bool :=
  match f with
  | none => false
  | some s => !(s.data == []) && !(stripWs s.data == [])

/-- The string behind an active filter argument. -/
def optStr (f : Option String) : String := f.getD ""

/-- `TaskManager.get_filtered_tasks`: starts from a copy of the task list
and applies up to three list-comprehension passes, one per active filter.
The method reads but never reassigns `self.tasks`, so the store itself is
untouched; the embedding reflects that by being a pure function of the
task list. -/
def get_filtered_tasks (tasks : List Task)
    (name_filter priority_filter due_date_filter : Option String) :
    List Task :=
  let filtered := tasks
  let filtered :=
    if pyTruthy name_filter then
      filtered.filter fun t =>
        containsSub (lowerData t.name) (lowerData (optStr name_filter))
    else filtered
  let filtered :=
    if pyTruthy priority_filter
        && !(lowerData (optStr priority_filter) == "all".data) then
      filtered.filter fun t =>
        lowerData t.priority == lowerData (optStr priority_filter)
    else filtered
  let filtered :=
    if pyTruthy due_date_filter then
      filtered.filter fun t => t.due_date == optStr due_date_filter
    else filtered
  filtered

/-- An absent or blank filter argument (the claim's "no-op" cases):
`None`, the empty string, or a whitespace-only string. -/
def blankFilter (f : Option String) : Bool :=
  match f with
  | none => true
  | some s => stripWs s.data == []

/-- Claim-side name predicate: a blank filter is a no-op, otherwise the
filter string must occur case-insensitively as a substring of `name`. -/
def specNameMatch (nf : Option String) (t : Task) : Bool :=
  blankFilter nf || containsSub (lowerData t.name) (lowerData (optStr nf))

/-- Claim-side priority predicate: blank is a no-op, the sentinel `all`
(any case) disables the filter, otherwise `priority` must match
case-insensitively. -/
def specPrioMatch (pf : Option String) (t : Task) : Bool :=
  blankFilter pf || lowerData (optStr pf) == "all".data
    || lowerData t.priority == lowerData (optStr pf)

/-- Claim-side due-date predicate: blank is a no-op, otherwise the raw
strings must be equal. -/
def specDateMatch (df : Option String) (t : Task) : Bool :=
  blankFilter df || t.due_date == optStr df

/-- The sort key for `sort_key == 'priority'`:
`{"high": 0, "medium": 1, "low": 2}.get(task.priority.lower(), 3)`. -/
def priorityRank (p : String) : Nat :=
  if lowerData p = "high".data then 0
  else if lowerData p = "medium".data then 1
  else if lowerData p = "low".data then 2
  else 3

/-- A parsed `%Y-%m-%d` date. -/
structure PyDate where
  year : Nat
  month : Nat
  day : Nat
deriving DecidableEq, Repr

/-- Encoding of a date as a natural number; for the dates produced by the
parser (`month ≤ 12`, `day ≤ 31`) it is strictly monotone in calendar
order, so comparing keys compares calendar dates. -/
def PyDate.key (d : PyDate) : Nat := d.year * 10000 + d.month * 100 + d.day

/-- Decimal value of an ASCII digit. -/
def digitVal (c : Char) : Nat := c.toNat - 48

/-- Leap-year rule used by Python's `datetime` (proleptic Gregorian). -/
def isLeap (y : Nat) : Bool := y % 4 == 0 && (y % 100 != 0 || y % 400 == 0)

/-- Days in a month per `datetime` (month is 1–12 here). -/
def daysInMonthOf (y m : Nat) : Nat :=
  if m = 2 then (if isLeap y then 29 else 28)
  else if m = 4 ∨ m = 6 ∨ m = 9 ∨ m = 11 then 30
  else 31

/-- Month field of `strptime`: CPython's `_strptime` matches `%m` with the
regex `1[0-2]|0[1-9]|[1-9]` (alternatives in that order), returning the
value and the remaining input. -/
def parseMonth : List Char → Option (Nat × List Char)
  | a :: b :: rest =>
    if a = '1' ∧ (b = '0' ∨ b = '1' ∨ b = '2') then
      some (10 + digitVal b, rest)
    else if a = '0' ∧ b.isDigit ∧ b ≠ '0' then some (digitVal b, rest)
    else if a.isDigit ∧ a ≠ '0' then some (digitVal a, b :: rest)
    else none
  | [a] => if a.isDigit ∧ a ≠ '0' then some (digitVal a, []) else none
  | [] => none

/-- Day field of `strptime`: `%d` is `3[01]|[12]\d|0[1-9]|[1-9]`. -/
def parseDay : List Char → Option (Nat × List Char)
  | a :: b :: rest =>
    if a = '3' ∧ (b = '0' ∨ b = '1') then some (30 + digitVal b, rest)
    else if (a = '1' ∨ a = '2') ∧ b.isDigit then
      some (digitVal a * 10 + digitVal b, rest)
    else if a = '0' ∧ b.isDigit ∧ b ≠ '0' then some (digitVal b, rest)
    else if a.isDigit ∧ a ≠ '0' then some (digitVal a, b :: rest)
    else none
  | [a] => if a.isDigit ∧ a ≠ '0' then some (digitVal a, []) else none
  | [] => none

/-- `datetime.strptime(s, "%Y-%m-%d")` (ASCII model): `%Y` is exactly four
digits, the two `-` are literal, `%m`/`%d` as above, the whole string must
be consumed, and the `datetime` constructor then requires `year ≥ 1`
(`MINYEAR`) and `day` within the month.  Returns `none` where CPython
raises `ValueError`. -/
def strptimeYmd (s : String) : Option PyDate :=
  match s.data with
  | a :: b :: c :: d :: '-' :: rest =>
    if a.isDigit ∧ b.isDigit ∧ c.isDigit ∧ d.isDigit then
      let year := ((digitVal a * 10 + digitVal b) * 10 + digitVal c) * 10
        + digitVal d
      match parseMonth rest with
      | some (m, '-' :: rest2) =>
        match parseDay rest2 with
        | some (dd, []) =>
          if 1 ≤ year ∧ dd ≤ daysInMonthOf year m then some ⟨year, m, dd⟩
          else none
        | _ => none
      | _ => none
    else none
  | _ => none

/-- Key order for the name sort: `task.name.lower()` compared with
Python's lexicographic code-point order (the `List Char` lexicographic
order). -/
def nameLe (a b : Task) : Prop := lowerData a.name ≤ lowerData b.name

instance : DecidableRel nameLe := fun a b =>
  inferInstanceAs (Decidable (lowerData a.name ≤ lowerData b.name))

instance : IsTotal Task nameLe := ⟨fun a b => le_total (lowerData a.name) (lowerData b.name)⟩

instance : IsTrans Task nameLe := ⟨fun _ _ _ h h' => le_trans h h'⟩

/-- Key order for the priority sort. -/
def prioLe (a b : Task) : Prop :=
  priorityRank a.priority ≤ priorityRank b.priority

instance : DecidableRel prioLe := fun a b =>
  inferInstanceAs (Decidable (priorityRank a.priority ≤ priorityRank b.priority))

instance : IsTotal Task prioLe := ⟨fun a b =>
  le_total (priorityRank a.priority) (priorityRank b.priority)⟩

instance : IsTrans Task prioLe := ⟨fun _ _ _ h h' => le_trans h h'⟩

/-- The due-date sort key of a task; only meaningful (and only used by
`sort_tasks`) when every due date parses. -/
def dueKey (t : Task) : Nat :=
  match strptimeYmd t.due_date with
  | some d => d.key
  | none => 0

/-- Key order for the due-date sort: calendar order of the parsed dates. -/
def dueLe (a b : Task) : Prop := dueKey a ≤ dueKey b

instance : DecidableRel dueLe := fun a b =>
  inferInstanceAs (Decidable (dueKey a ≤ dueKey b))

instance : IsTotal Task dueLe := ⟨fun a b => le_total (dueKey a) (dueKey b)⟩

instance : IsTrans Task dueLe := ⟨fun _ _ _ h h' => le_trans h h'⟩

/-- Python's stable `list.sort(key=..., reverse=...)`: a stable sort by
key; CPython implements `reverse=True` by reversing the list before and
after an ascending stable sort, which keeps equal-keyed elements in their
original relative order while ordering keys descending.  `insertionSort`
(insert after strictly-smaller, before greater-or-equal) is a stable
ascending sort, so it has the same result as Timsort on every input. -/
def pySortBy {α : Type} (r : α → α → Prop) [DecidableRel r] (reverse : Bool)
    (l : List α) : List α :=
  if reverse then (List.insertionSort r l.reverse).reverse
  else List.insertionSort r l

/-- The sort keys `TaskManager.sort_tasks` recognizes; any other argument
(e.g. the GUI's `description` column) falls through the `if`/`elif` chain
and leaves the list unchanged. -/
inductive SortKey where
  | name
  | priority
  | due_date
  | other
deriving DecidableEq, Repr

/-- The error escaping a due-date sort (Python `ValueError` from
`strptime`). -/
inductive SortErr where
  | dateParse
deriving DecidableEq, Repr

/-- `TaskManager.sort_tasks`: sorts `self.tasks` in place with the key
functions above and returns the reordered list.  For `due_date`,
`list.sort` computes every key before reordering, so a `strptime` failure
raises with the list unchanged; the method performs no file writes, which
the empty `FsOp` trace records. -/
def sort_tasks (tasks : List Task) (sort_key : SortKey) (reverse : Bool) :
    Except SortErr (List Task) × List FsOp :=
  match sort_key with
  | .name => (.ok (pySortBy nameLe reverse tasks), [])
  | .priority => (.ok (pySortBy prioLe reverse tasks), [])
  | .due_date =>
    if tasks.all fun t => (strptimeYmd t.due_date).isSome then
      (.ok (pySortBy dueLe reverse tasks), [])
    else (.error .dateParse, [])
  | .other => (.ok tasks, [])

/-- `TaskManager.add_task`: appends the new task, saves, returns it. -/
def add_task (json_file : String) (tasks : List Task)
    (name description priority due_date : String) :
    Task × List Task × List FsOp :=
  let task : Task := ⟨name, description, priority, due_date⟩
  let ts := tasks ++ [task]
  (task, ts, save_tasks_to_json json_file ts)

/-- `TaskManager.update_task`: Python `index` is an `int`, checked with
`0 <= index < len(self.tasks)`; in bounds, the slot is overwritten and the
file saved, otherwise `False` with no effect. -/
def update_task (json_file : String) (tasks : List Task) (index : Int)
    (name description priority due_date : String) :
    Bool × List Task × List FsOp :=
  if 0 ≤ index ∧ index < tasks.length then
    let ts := tasks.set index.toNat ⟨name, description, priority, due_date⟩
    (true, ts, save_tasks_to_json json_file ts)
  else (false, tasks, [])

/-- `TaskManager.delete_task`: same bounds check, then `del` and save. -/
def delete_task (json_file : String) (tasks : List Task) (index : Int) :
    Bool × List Task × List FsOp :=
  if 0 ≤ index ∧ index < tasks.length then
    let ts := tasks.eraseIdx index.toNat
    (true, ts, save_tasks_to_json json_file ts)
  else (false, tasks, [])

/-- Digit-run continuation of Python `int()`: further digits, with single
underscores allowed between digits. -/
def pyDigitsCont (acc : Nat) : List Char → Option Nat
  | [] => some acc
  | '_' :: c :: rest =>
    if c.isDigit then pyDigitsCont (acc * 10 + digitVal c) rest else none
  | ['_'] => none
  | c :: rest =>
    if c.isDigit then pyDigitsCont (acc * 10 + digitVal c) rest else none

/-- Nonempty digit run (no leading underscore). -/
def pyIntCore : List Char → Option Nat
  | c :: rest => if c.isDigit then pyDigitsCont (digitVal c) rest else none
  | [] => none

/-- Python `int(str)` on short numeric strings (ASCII model): surrounding
whitespace is ignored, one optional sign, then a nonempty digit run;
`none` where CPython raises `ValueError`. -/
def pyInt? (s : String) : Option Int :=
  match stripWs s.data with
  | '+' :: rest => (pyIntCore rest).map Int.ofNat
  | '-' :: rest => (pyIntCore rest).map fun n => -(n : Int)
  | rest => (pyIntCore rest).map Int.ofNat

/-- `TaskManagerGUI.validate_date`: a direct translation.  The guard
`len(date) != 10 or date[4] != '-' or date[7] != '-'` short-circuits, the
three slices are parsed with `int` (a `ValueError` is caught by the
surrounding `try` and yields `False`), the bounds are checked in source
order, and `days_in_month[2]` is overwritten with 29 in leap years before
indexing by month. -/
def validate_date (date : String) : Bool :=
  let cs := date.data
  if cs.length ≠ 10 ∨ cs.get? 4 ≠ some '-' ∨ cs.get? 7 ≠ some '-' then false
  else
    match pyInt? (String.mk (cs.take 4)),
        pyInt? (String.mk ((cs.drop 5).take 2)),
        pyInt? (String.mk ((cs.drop 8).take 2)) with
    | some year, some month, some day =>
      if year < 1900 ∨ 2100 < year then false
      else if month < 1 ∨ 12 < month then false
      else
        let feb : Int :=
          if year % 400 = 0 ∨ (year % 100 ≠ 0 ∧ year % 4 = 0) then 29 else 28
        let table : List Int :=
          [0, 31, feb, 31, 30, 31, 30, 31, 31, 30, 31, 30, 31]
        if day < 1 ∨ table.getD month.toNat 0 < day then false
        else true
    | _, _, _ => false

/-- Days in a month as the claim states them: February has 29 days exactly
in leap years (divisible by 400, or by 4 and not by 100); April, June,
September and November have 30; the rest 31. -/
def specDaysInMonth (y m : Int) : Int :=
  if m = 2 then (if y % 400 = 0 ∨ (y % 4 = 0 ∧ y % 100 ≠ 0) then 29 else 28)
  else if m = 4 ∨ m = 6 ∨ m = 9 ∨ m = 11 then 30
  else 31

/-- The claim's characterization of a valid date string: exactly ten
characters with `-` at positions 4 and 7, the three component slices parse
as integers, and year, month and day lie within their bounds. -/
def validDateSpec (date : String) : Prop :=
  date.data.length = 10 ∧ date.data.get? 4 = some '-'
    ∧ date.data.get? 7 = some '-'
    ∧ ∃ y m d : Int,
      pyInt? (String.mk (date.data.take 4)) = some y
      ∧ pyInt? (String.mk ((date.data.drop 5).take 2)) = some m
      ∧ pyInt? (String.mk ((date.data.drop 8).take 2)) = some d
      ∧ 1900 ≤ y ∧ y ≤ 2100 ∧ 1 ≤ m ∧ m ≤ 12 ∧ 1 ≤ d
      ∧ d ≤ specDaysInMonth y m

/-- A record the loader accepts: an object carrying the four fields. -/
def WellFormedRecord (j : Json) : Prop :=
  ∃ t : Task, Task.from_dict j = .ok t

/-- The task stored for a well-formed record. -/
def recordTask (j : Json) : Task :=
  match Task.from_dict j with
  | .ok t => t
  | .error _ => default

/-- Case-insensitive priority-class predicates used to state stability of
the priority sort. -/
def isHigh (t : Task) : Bool := lowerData t.priority == "high".data

def isMedium (t : Task) : Bool := lowerData t.priority == "medium".data

def isLow (t : Task) : Bool := lowerData t.priority == "low".data

def isOther (t : Task) : Bool := !(isHigh t || isMedium t || isLow t)

/-! ## Helper lemmas -/

theorem from_dict_to_dict (t : Task) : Task.from_dict t.to_dict = .ok t := rfl

theorem parseTasks_map_to_dict (tasks : List Task) :
    parseTasks (tasks.map Task.to_dict) = .ok tasks := by
  induction tasks with
  | nil => rfl
  | cons t ts ih =>
    simp only [List.map_cons, parseTasks, from_dict_to_dict, ih]
    rfl

/-! ## Claims -/

/-- C7: round-trip persistence — for every sequence of tasks whose four
fields are strings, saving (which writes the serialized array
`tasks.map Task.to_dict` to the backing file) and then loading yields the
same task sequence, field by field and in the same order. -/
theorem save_then_load_roundtrip (tasks : List Task) :
    load_tasks_from_json (.json (.arr (tasks.map Task.to_dict))) = .ok tasks :=
  parseTasks_map_to_dict tasks

/-- C1 (amended): store construction fails open on an absent backing file
and on content that is not valid JSON, loading an empty collection in both
cases, and loads every record in file order when the content is an array
of well-formed four-key records; but for valid JSON that is not such a
sequence the claim fails — see the counterexample, where a record missing
the `name` key makes the constructor propagate a `KeyError`. -/
theorem load_fails_open_amended :
    load_tasks_from_json .absent = .ok []
    ∧ (∀ raw, load_tasks_from_json (.notJson raw) = .ok [])
    ∧ ∀ records, (∀ j ∈ records, WellFormedRecord j) →
        load_tasks_from_json (.json (.arr records)) = .ok (records.map recordTask) := by
  refine ⟨rfl, fun _ => rfl, fun records h => ?_⟩
  show parseTasks records = .ok (records.map recordTask)
  induction records with
  | nil => rfl
  | cons j js ih =>
    obtain ⟨t, ht⟩ := h j (List.mem_cons_self j js)
    have hrec : recordTask j = t := by simp [recordTask, ht]
    simp only [List.map_cons, parseTasks, ht, hrec,
      ih fun j hj => h j (List.mem_cons_of_mem _ hj)]
    rfl

theorem load_fails_open_amended_witness :
    load_tasks_from_json (.json (.arr [Task.to_dict ⟨"a", "b", "c", "d"⟩]))
      = .ok [⟨"a", "b", "c", "d"⟩] :=
  load_fails_open_amended.2.2 [Task.to_dict ⟨"a", "b", "c", "d"⟩]
    (fun j hj => by
      rw [List.mem_singleton] at hj
      exact hj ▸ ⟨⟨"a", "b", "c", "d"⟩, rfl⟩)

/-- C1 (counterexample): the backing file holding the valid JSON document
`[{}]` — an array whose one record is missing all four keys — makes the
constructor raise `KeyError("name")` instead of completing with an empty
collection: the `try` in `load_tasks_from_json` only catches
`FileNotFoundError` and `json.JSONDecodeError`. -/
theorem load_not_fails_open_counterexample :
    load_tasks_from_json (.json (.arr [Json.obj []]))
      = .error (.keyError "name") := rfl

/-- C2 (amended): `save_tasks_to_json` opens the backing file itself for
writing — truncating it — and then writes the serialized sequence into it
directly; it uses no temporary path and performs no rename, so a reader
between the truncating open and the completed write observes a partially
written file. -/
theorem save_overwrites_directly (json_file : String) (tasks : List Task) :
    save_tasks_to_json json_file tasks
      = [.openWrite json_file, .writeAll json_file (.arr (tasks.map Task.to_dict))]
    ∧ hasRename (save_tasks_to_json json_file tasks) = false :=
  ⟨rfl, rfl⟩

/-- C2 (counterexample): at the concrete store (`tasks.json`, no tasks),
the save trace opens the target path itself for writing and contains no
rename of a temporary path over the target, refuting "save writes the
serialized sequence to a temporary path and renames it over the target". -/
theorem save_not_atomic_counterexample :
    save_tasks_to_json "tasks.json" []
      = [.openWrite "tasks.json", .writeAll "tasks.json" (.arr [])]
    ∧ hasRename (save_tasks_to_json "tasks.json" []) = false :=
  ⟨rfl, rfl⟩

/-- C6: out-of-bounds indices (negative, or ≥ length) make `update_task`
and `delete_task` return `False` with the collection unchanged and no file
write; in-bounds indices replace (resp. remove) exactly the task at that
index, save the new list to the backing file, and return `True`. -/
theorem update_delete_bounds (json_file : String) (tasks : List Task)
    (index : Int) (n d p dd : String) :
    (¬ (0 ≤ index ∧ index < tasks.length) →
      update_task json_file tasks index n d p dd = (false, tasks, [])
      ∧ delete_task json_file tasks index = (false, tasks, []))
    ∧ ((0 ≤ index ∧ index < tasks.length) →
      update_task json_file tasks index n d p dd
        = (true,
           tasks.take index.toNat ++ ⟨n, d, p, dd⟩ :: tasks.drop (index.toNat + 1),
           save_tasks_to_json json_file
             (tasks.take index.toNat ++ ⟨n, d, p, dd⟩ :: tasks.drop (index.toNat + 1)))
      ∧ delete_task json_file tasks index
        = (true,
           tasks.take index.toNat ++ tasks.drop (index.toNat + 1),
           save_tasks_to_json json_file
             (tasks.take index.toNat ++ tasks.drop (index.toNat + 1)))) := by
  constructor
  · intro h
    unfold update_task delete_task
    rw [if_neg h, if_neg h]
    exact ⟨rfl, rfl⟩
  · intro h
    have hlt : index.toNat < tasks.length := by omega
    unfold update_task delete_task
    rw [if_pos h, if_pos h, List.set_eq_take_append_cons_drop, if_pos hlt,
      List.eraseIdx_eq_take_drop_succ]
    exact ⟨rfl, rfl⟩

theorem update_delete_bounds_witness :
    (update_task "tasks.json" [⟨"a", "b", "c", "d"⟩] (-1) "x" "y" "z" "w"
      = (false, [⟨"a", "b", "c", "d"⟩], []))
    ∧ (delete_task "tasks.json" [⟨"a", "b", "c", "d"⟩] 1
      = (false, [⟨"a", "b", "c", "d"⟩], []))
    ∧ (update_task "tasks.json" [⟨"a", "b", "c", "d"⟩] 0 "x" "y" "z" "w"
      = (true, [⟨"x", "y", "z", "w"⟩],
         save_tasks_to_json "tasks.json" [⟨"x", "y", "z", "w"⟩])) :=
  ⟨((update_delete_bounds "tasks.json" [⟨"a", "b", "c", "d"⟩] (-1) "x" "y" "z" "w").1
      (by omega)).1,
   ((update_delete_bounds "tasks.json" [⟨"a", "b", "c", "d"⟩] 1 "x" "y" "z" "w").1
      (by simp)).2,
   ((update_delete_bounds "tasks.json" [⟨"a", "b", "c", "d"⟩] 0 "x" "y" "z" "w").2
      (by simp)).1⟩

/-- C10: sorting (with any key and direction) performs no file operation,
so the backing file keeps the pre-sort record order; among the store's
operations only `add_task`, `update_task` and `delete_task` emit the
save-trace (and the two indexed ones only when the index is in bounds),
while a save itself always writes. -/
theorem sort_never_persists (json_file : String) (tasks : List Task)
    (key : SortKey) (rev : Bool) (index : Int) (n d p dd : String) :
    (sort_tasks tasks key rev).2 = []
    ∧ (add_task json_file tasks n d p dd).2.2
        = save_tasks_to_json json_file (tasks ++ [⟨n, d, p, dd⟩])
    ∧ (update_task json_file tasks index n d p dd).2.2
        = (if 0 ≤ index ∧ index < tasks.length then
            save_tasks_to_json json_file (tasks.set index.toNat ⟨n, d, p, dd⟩)
          else [])
    ∧ (delete_task json_file tasks index).2.2
        = (if 0 ≤ index ∧ index < tasks.length then
            save_tasks_to_json json_file (tasks.eraseIdx index.toNat)
          else [])
    ∧ save_tasks_to_json json_file tasks ≠ [] := by
  refine ⟨?_, rfl, ?_, ?_, by simp [save_tasks_to_json]⟩
  · cases key
    case due_date =>
      simp only [sort_tasks]
      split <;> rfl
    all_goals rfl
  · unfold update_task; split <;> rfl
  · unfold delete_task; split <;> rfl

theorem pyTruthy_eq_not_blank (f : Option String) : pyTruthy f = !blankFilter f := by
  cases f with
  | none => rfl
  | some s =>
    show (!(s.data == []) && !(stripWs s.data == [])) = !(stripWs s.data == [])
    by_cases h : s.data = []
    · simp [h, stripWs]
    · simp [h]

theorem ite_filter_eq (c : Bool) (p : Task → Bool) (l : List Task) :
    (if c = true then l.filter p else l) = l.filter fun t => !c || p t := by
  cases c <;> simp

/-- C3: for every store state and filter combination, the filtered result
is exactly the subsequence of tasks satisfying the conjunction of the
three per-filter predicates — blank/absent filters are no-ops, the name
filter is a case-insensitive substring test, the priority filter a
case-insensitive equality disabled by the sentinel `all` (any case), and
the due-date filter a raw string equality.  The method reads a copy of the
list and never reassigns the store's sequence, which the embedding
reflects by being a pure function of it. -/
theorem get_filtered_tasks_spec (tasks : List Task) (nf pf df : Option String) :
    get_filtered_tasks tasks nf pf df
      = tasks.filter fun t =>
          specNameMatch nf t && specPrioMatch pf t && specDateMatch df t := by
  unfold get_filtered_tasks
  dsimp only
  rw [ite_filter_eq, ite_filter_eq, ite_filter_eq, List.filter_filter,
    List.filter_filter]
  apply List.filter_congr
  intro t _
  simp only [specNameMatch, specPrioMatch, specDateMatch, pyTruthy_eq_not_blank]
  generalize blankFilter nf = A
  generalize containsSub (lowerData t.name) (lowerData (optStr nf)) = B
  generalize blankFilter pf = C
  generalize (lowerData (optStr pf) == "all".data) = D
  generalize (lowerData t.priority == lowerData (optStr pf)) = E
  generalize blankFilter df = F
  generalize (t.due_date == optStr df) = G
  revert A B C D E F G
  decide

theorem pySortBy_idem {α : Type} (r : α → α → Prop) [DecidableRel r] [IsTotal α r]
    [IsTrans α r] (rev : Bool) (l : List α) :
    pySortBy r rev (pySortBy r rev l) = pySortBy r rev l := by
  cases rev with
  | false =>
    show List.insertionSort r (List.insertionSort r l) = List.insertionSort r l
    exact List.Sorted.insertionSort_eq (List.sorted_insertionSort r l)
  | true =>
    show (List.insertionSort r (List.insertionSort r l.reverse).reverse.reverse).reverse
      = (List.insertionSort r l.reverse).reverse
    rw [List.reverse_reverse,
      List.Sorted.insertionSort_eq (List.sorted_insertionSort r l.reverse)]

theorem pySortBy_perm {α : Type} (r : α → α → Prop) [DecidableRel r] (rev : Bool)
    (l : List α) : (pySortBy r rev l).Perm l := by
  cases rev with
  | false => exact List.perm_insertionSort r l
  | true =>
    show ((List.insertionSort r l.reverse).reverse).Perm l
    exact ((List.insertionSort r l.reverse).reverse_perm.trans
      (List.perm_insertionSort r l.reverse)).trans l.reverse_perm

/-- C9: whenever a sort succeeds, sorting the result again with the same
key and direction returns it unchanged. -/
theorem sort_idempotent (tasks : List Task) (key : SortKey) (rev : Bool)
    (out : List Task) (h : (sort_tasks tasks key rev).1 = .ok out) :
    (sort_tasks out key rev).1 = .ok out := by
  cases key
  case name =>
    have h' : pySortBy nameLe rev tasks = out := by simpa [sort_tasks] using h
    simp [sort_tasks, ← h', pySortBy_idem]
  case priority =>
    have h' : pySortBy prioLe rev tasks = out := by simpa [sort_tasks] using h
    simp [sort_tasks, ← h', pySortBy_idem]
  case other =>
    have h' : tasks = out := by simpa [sort_tasks] using h
    simp [sort_tasks, ← h']
  case due_date =>
    simp only [sort_tasks] at h
    by_cases hall : (tasks.all fun t => (strptimeYmd t.due_date).isSome) = true
    · rw [if_pos hall] at h
      have h' : pySortBy dueLe rev tasks = out := by simpa using h
      have hperm : out.Perm tasks := h' ▸ pySortBy_perm dueLe rev tasks
      have hall2 : (out.all fun t => (strptimeYmd t.due_date).isSome) = true := by
        rw [List.all_eq_true] at hall ⊢
        exact fun t ht => hall t (hperm.mem_iff.mp ht)
      simp only [sort_tasks]
      rw [if_pos hall2]
      show Except.ok (pySortBy dueLe rev out) = Except.ok out
      rw [← h', pySortBy_idem]
    · rw [if_neg hall] at h
      exact absurd h (by simp)

theorem sort_idempotent_witness :
    (sort_tasks [⟨"b", "", "low", "2025-01-02"⟩, ⟨"a", "", "high", "2024-01-01"⟩]
        .priority false).1
      = .ok [⟨"a", "", "high", "2024-01-01"⟩, ⟨"b", "", "low", "2025-01-02"⟩]
    ∧ (sort_tasks [⟨"a", "", "high", "2024-01-01"⟩, ⟨"b", "", "low", "2025-01-02"⟩]
        .priority false).1
      = .ok [⟨"a", "", "high", "2024-01-01"⟩, ⟨"b", "", "low", "2025-01-02"⟩] :=
  ⟨rfl,
   sort_idempotent [⟨"b", "", "low", "2025-01-02"⟩, ⟨"a", "", "high", "2024-01-01"⟩]
     .priority false
     [⟨"a", "", "high", "2024-01-01"⟩, ⟨"b", "", "low", "2025-01-02"⟩] rfl⟩

/-- C5: a due-date sort fails — the parse error propagates, `sort_tasks`
having no handler for it — exactly when some task's due date does not
parse as `%Y-%m-%d`; when every due date parses, the result is a
permutation of the store and (ascending) is ordered by calendar order of
the parsed dates (`dueLe` compares the order-preserving encoding of the
parse result). -/
theorem sort_due_date_spec (tasks : List Task) (rev : Bool) :
    ((sort_tasks tasks .due_date rev).1 = .error .dateParse
      ↔ ∃ t ∈ tasks, strptimeYmd t.due_date = none)
    ∧ ∀ out, (sort_tasks tasks .due_date rev).1 = .ok out →
        out.Perm tasks ∧ (rev = false → out.Pairwise dueLe) := by
  by_cases hall : (tasks.all fun t => (strptimeYmd t.due_date).isSome) = true
  · constructor
    · simp only [sort_tasks, if_pos hall]
      rw [List.all_eq_true] at hall
      constructor
      · intro h; exact absurd h (by simp)
      · rintro ⟨t, ht, hnone⟩
        have := hall t ht
        rw [hnone] at this
        exact absurd this (by simp)
    · intro out h
      rw [sort_tasks] at h
      rw [if_pos hall] at h
      have h' : pySortBy dueLe rev tasks = out := by simpa using h
      refine ⟨h' ▸ pySortBy_perm dueLe rev tasks, fun hrev => ?_⟩
      subst hrev
      have : out = List.insertionSort dueLe tasks := h'.symm
      rw [this]
      exact List.sorted_insertionSort dueLe tasks
  · constructor
    · simp only [sort_tasks, if_neg hall]
      simp only [List.all_eq_true, not_forall] at hall
      obtain ⟨t, ht, hns⟩ := hall
      exact ⟨fun _ => ⟨t, ht, by simpa using hns⟩, fun _ => trivial⟩
    · intro out h
      rw [sort_tasks] at h
      rw [if_neg hall] at h
      exact absurd h (by simp)

theorem sort_due_date_spec_witness :
    ([(⟨"b", "", "low", "2024-12-31"⟩ : Task), ⟨"a", "", "high", "2025-01-02"⟩].Perm
      [⟨"a", "", "high", "2025-01-02"⟩, ⟨"b", "", "low", "2024-12-31"⟩])
    ∧ [(⟨"b", "", "low", "2024-12-31"⟩ : Task),
        ⟨"a", "", "high", "2025-01-02"⟩].Pairwise dueLe :=
  have h := (sort_due_date_spec
    [⟨"a", "", "high", "2025-01-02"⟩, ⟨"b", "", "low", "2024-12-31"⟩] false).2
    [⟨"b", "", "low", "2024-12-31"⟩, ⟨"a", "", "high", "2025-01-02"⟩] rfl
  ⟨h.1, h.2 rfl⟩

theorem rank_isHigh {t : Task} (h : isHigh t = true) :
    priorityRank t.priority = 0 := by
  simp only [isHigh, beq_iff_eq] at h
  simp [priorityRank, h]

theorem rank_isMedium {t : Task} (h : isMedium t = true) :
    priorityRank t.priority = 1 := by
  simp only [isMedium, beq_iff_eq] at h
  simp [priorityRank, h]

theorem rank_isLow {t : Task} (h : isLow t = true) :
    priorityRank t.priority = 2 := by
  simp only [isLow, beq_iff_eq] at h
  simp [priorityRank, h]

theorem rank_isOther {t : Task} (h : isOther t = true) :
    priorityRank t.priority = 3 := by
  simp only [isOther, isHigh, isMedium, isLow, Bool.not_eq_true',
    Bool.or_eq_false_iff, beq_eq_false_iff_ne, ne_eq] at h
  simp only [priorityRank, if_neg h.1.1, if_neg h.1.2, if_neg h.2]

theorem orderedInsert_append_not_le {α : Type} (r : α → α → Prop) [DecidableRel r]
    (x : α) (A B : List α) (h : ∀ y ∈ A, ¬ r x y) :
    List.orderedInsert r x (A ++ B) = A ++ List.orderedInsert r x B := by
  induction A with
  | nil => rfl
  | cons a A ih =>
    rw [List.cons_append, List.orderedInsert, if_neg (h a (List.mem_cons_self a A)),
      ih fun y hy => h y (List.mem_cons_of_mem a hy), List.cons_append]

theorem orderedInsert_le_all {α : Type} (r : α → α → Prop) [DecidableRel r]
    (x : α) (B : List α) (h : ∀ y ∈ B, r x y) :
    List.orderedInsert r x B = x :: B := by
  cases B with
  | nil => rfl
  | cons b l => rw [List.orderedInsert, if_pos (h b (List.mem_cons_self b l))]

theorem mem_filter_rank {p : Task → Bool} {l : List Task} {v : Nat}
    (hv : ∀ t : Task, p t = true → priorityRank t.priority = v) :
    ∀ y ∈ l.filter p, priorityRank y.priority = v := fun y hy =>
  hv y (List.mem_filter.mp hy).2

/-- Stability core: inserting-sorting by priority rank groups the list
into the four rank classes, each in original relative order. -/
theorem insertionSort_prio_stable (l : List Task) :
    List.insertionSort prioLe l
      = l.filter isHigh ++ (l.filter isMedium ++ (l.filter isLow
        ++ l.filter isOther)) := by
  induction l with
  | nil => rfl
  | cons x l ih =>
    have hO : ∀ y ∈ l.filter isOther, priorityRank y.priority = 3 :=
      mem_filter_rank fun t => rank_isOther
    have hL : ∀ y ∈ l.filter isLow, priorityRank y.priority = 2 :=
      mem_filter_rank fun t => rank_isLow
    have hM : ∀ y ∈ l.filter isMedium, priorityRank y.priority = 1 :=
      mem_filter_rank fun t => rank_isMedium
    have hH : ∀ y ∈ l.filter isHigh, priorityRank y.priority = 0 :=
      mem_filter_rank fun t => rank_isHigh
    simp only [List.insertionSort, ih]
    by_cases hh : isHigh x = true
    · have hrx := rank_isHigh hh
      rw [orderedInsert_le_all prioLe x _ fun y hy => by
        show priorityRank x.priority ≤ priorityRank y.priority
        rw [hrx]; exact Nat.zero_le _]
      have h2 : isMedium x = false := by
        simp only [isHigh, beq_iff_eq] at hh
        simp [isMedium, hh]
      have h3 : isLow x = false := by
        simp only [isHigh, beq_iff_eq] at hh
        simp [isLow, hh]
      have h4 : isOther x = false := by simp [isOther, hh]
      simp [List.filter_cons, hh, h2, h3, h4]
    · by_cases hm : isMedium x = true
      · have hrx := rank_isMedium hm
        rw [orderedInsert_append_not_le prioLe x _ _ fun y hy => by
          show ¬ priorityRank x.priority ≤ priorityRank y.priority
          rw [hrx, hH y hy]; omega]
        rw [orderedInsert_le_all prioLe x _ fun y hy => by
          show priorityRank x.priority ≤ priorityRank y.priority
          rcases List.mem_append.mp hy with hy | hy
          · rw [hrx, hM y hy]
          · rcases List.mem_append.mp hy with hy | hy
            · rw [hrx, hL y hy]; omega
            · rw [hrx, hO y hy]; omega]
        have h3 : isLow x = false := by
          simp only [isMedium, beq_iff_eq] at hm
          simp [isLow, hm]
        have h4 : isOther x = false := by simp [isOther, hm]
        have h1 : isHigh x = false := by simp only [Bool.not_eq_true] at hh; exact hh
        simp [List.filter_cons, h1, hm, h3, h4]
      · by_cases hlo : isLow x = true
        · have hrx := rank_isLow hlo
          rw [orderedInsert_append_not_le prioLe x _ _ fun y hy => by
            show ¬ priorityRank x.priority ≤ priorityRank y.priority
            rw [hrx, hH y hy]; omega]
          rw [orderedInsert_append_not_le prioLe x _ _ fun y hy => by
            show ¬ priorityRank x.priority ≤ priorityRank y.priority
            rw [hrx, hM y hy]; omega]
          rw [orderedInsert_le_all prioLe x _ fun y hy => by
            show priorityRank x.priority ≤ priorityRank y.priority
            rcases List.mem_append.mp hy with hy | hy
            · rw [hrx, hL y hy]
            · rw [hrx, hO y hy]; omega]
          have h1 : isHigh x = false := by simp only [Bool.not_eq_true] at hh; exact hh
          have h2 : isMedium x = false := by simp only [Bool.not_eq_true] at hm; exact hm
          have h4 : isOther x = false := by simp [isOther, hlo]
          simp [List.filter_cons, h1, h2, hlo, h4]
        · have h1 : isHigh x = false := by simp only [Bool.not_eq_true] at hh; exact hh
          have h2 : isMedium x = false := by simp only [Bool.not_eq_true] at hm; exact hm
          have h3 : isLow x = false := by simp only [Bool.not_eq_true] at hlo; exact hlo
          have h4 : isOther x = true := by simp [isOther, h1, h2, h3]
          have hrx := rank_isOther h4
          rw [orderedInsert_append_not_le prioLe x _ _ fun y hy => by
            show ¬ priorityRank x.priority ≤ priorityRank y.priority
            rw [hrx, hH y hy]; omega]
          rw [orderedInsert_append_not_le prioLe x _ _ fun y hy => by
            show ¬ priorityRank x.priority ≤ priorityRank y.priority
            rw [hrx, hM y hy]; omega]
          rw [orderedInsert_append_not_le prioLe x _ _ fun y hy => by
            show ¬ priorityRank x.priority ≤ priorityRank y.priority
            rw [hrx, hL y hy]; omega]
          rw [orderedInsert_le_all prioLe x _ fun y hy => by
            show priorityRank x.priority ≤ priorityRank y.priority
            rw [hrx, hO y hy]]
          simp [List.filter_cons, h1, h2, h3, h4]

/-- C4: ascending priority sort puts every case-insensitive `high` task
first, then every `medium`, then every `low`, then every task with any
other priority value, and within each of the four groups tasks keep their
original relative order (stability of `list.sort`). -/
theorem sort_priority_stable (tasks : List Task) :
    (sort_tasks tasks .priority false).1
      = .ok (tasks.filter isHigh ++ tasks.filter isMedium
          ++ tasks.filter isLow ++ tasks.filter isOther) := by
  show Except.ok (List.insertionSort prioLe tasks) = _
  rw [insertionSort_prio_stable]
  simp [List.append_assoc]

theorem table_getD_eq_spec (y m : Int) (h1 : 1 ≤ m) (h2 : m ≤ 12) :
    ([0, 31, if y % 400 = 0 ∨ (y % 100 ≠ 0 ∧ y % 4 = 0) then (29 : Int) else 28,
      31, 30, 31, 30, 31, 31, 30, 31, 30, 31].getD m.toNat 0)
      = specDaysInMonth y m := by
  interval_cases m
  case «2» =>
    show (if y % 400 = 0 ∨ (y % 100 ≠ 0 ∧ y % 4 = 0) then (29 : Int) else 28)
      = (if y % 400 = 0 ∨ (y % 4 = 0 ∧ y % 100 ≠ 0) then (29 : Int) else 28)
    exact if_congr (by tauto) rfl rfl
  all_goals rfl

/-- C8 core: the translated validator agrees with the claim's
characterization of validity on every input string. -/
theorem validate_date_iff (s : String) : validate_date s = true ↔ validDateSpec s := by
  unfold validate_date validDateSpec
  dsimp only
  by_cases h10 : s.data.length = 10
  case neg =>
    rw [if_pos (Or.inl h10)]
    simp only [Bool.false_eq_true, false_iff]
    exact fun hc => h10 hc.1
  case pos =>
  by_cases h4 : s.data.get? 4 = some '-'
  case neg =>
    rw [if_pos (Or.inr (Or.inl h4))]
    simp only [Bool.false_eq_true, false_iff]
    exact fun hc => h4 hc.2.1
  case pos =>
  by_cases h7 : s.data.get? 7 = some '-'
  case neg =>
    rw [if_pos (Or.inr (Or.inr h7))]
    simp only [Bool.false_eq_true, false_iff]
    exact fun hc => h7 hc.2.2.1
  case pos =>
  have hcond : ¬(s.data.length ≠ 10 ∨ s.data.get? 4 ≠ some '-'
      ∨ s.data.get? 7 ≠ some '-') := by
    push_neg
    exact ⟨h10, h4, h7⟩
  rw [if_neg hcond]
  simp only [h10, h4, h7, eq_self_iff_true, true_and]
  rcases hY : pyInt? (String.mk (s.data.take 4)) with _ | y
  · simp
  rcases hM : pyInt? (String.mk ((s.data.drop 5).take 2)) with _ | m
  · simp
  rcases hD : pyInt? (String.mk ((s.data.drop 8).take 2)) with _ | d
  · simp
  simp only [Option.some.injEq]
  show (if y < 1900 ∨ 2100 < y then false
    else if m < 1 ∨ 12 < m then false
    else if d < 1 ∨ ([0, 31,
        if y % 400 = 0 ∨ (y % 100 ≠ 0 ∧ y % 4 = 0) then (29 : Int) else 28,
        31, 30, 31, 30, 31, 31, 30, 31, 30, 31].getD m.toNat 0) < d then false
    else true) = true
    ↔ ∃ y' m' d' : Int, y = y' ∧ m = m' ∧ d = d'
        ∧ 1900 ≤ y' ∧ y' ≤ 2100 ∧ 1 ≤ m' ∧ m' ≤ 12 ∧ 1 ≤ d'
        ∧ d' ≤ specDaysInMonth y' m'
  constructor
  · intro htrue
    by_cases hA : y < 1900 ∨ 2100 < y
    · rw [if_pos hA] at htrue
      exact absurd htrue (by simp)
    rw [if_neg hA] at htrue
    by_cases hB : m < 1 ∨ 12 < m
    · rw [if_pos hB] at htrue
      exact absurd htrue (by simp)
    rw [if_neg hB] at htrue
    by_cases hC : d < 1 ∨ ([0, 31,
        if y % 400 = 0 ∨ (y % 100 ≠ 0 ∧ y % 4 = 0) then (29 : Int) else 28,
        31, 30, 31, 30, 31, 31, 30, 31, 30, 31].getD m.toNat 0) < d
    · rw [if_pos hC] at htrue
      exact absurd htrue (by simp)
    push_neg at hA hB hC
    exact ⟨y, m, d, rfl, rfl, rfl, by omega, by omega, by omega, by omega,
      by omega,
      by rw [← table_getD_eq_spec y m (by omega) (by omega)]; exact hC.2⟩
  · rintro ⟨y', m', d', rfl, rfl, rfl, hb1, hb2, hb3, hb4, hb5, hb6⟩
    rw [← table_getD_eq_spec y m (by omega) (by omega)] at hb6
    rw [if_neg (by omega), if_neg (by omega),
      if_neg (by push_neg; exact ⟨by omega, hb6⟩)]

/-- C8: the date validator returns `true` exactly on strings that are ten
characters with `-` at positions 4 and 7, whose year, month and day
slices parse as integers, with year in `[1900, 2100]`, month in
`[1, 12]` and day in `[1, days-in-month]` under the stated leap rule;
it accepts `2024-02-29` and rejects `2023-02-29`, `1899-12-31`,
`2024-13-01` and `2024-04-31`, and (being a total function whose `try`
absorbs `int`'s `ValueError`) raises on no input. -/
theorem validate_date_correct :
    (∀ s, validate_date s = true ↔ validDateSpec s)
    ∧ validate_date "2024-02-29" = true
    ∧ validate_date "2023-02-29" = false
    ∧ validate_date "1899-12-31" = false
    ∧ validate_date "2024-13-01" = false
    ∧ validate_date "2024-04-31" = false :=
  ⟨validate_date_iff, by decide, by decide, by decide, by decide, by decide⟩

end TaskManagerV2
